import Mathlib

/-!
Verification of the WhereHows web client's HTTP convenience layer
(`wherehows-web/app/utils/api/fetcher.ts`) and of the compliance data type
declarations, against their natural-language specification.

JavaScript objects with string keys are embedded as association lists in
property-insertion order; `Object.assign` becomes a fold of property writes;
pending results (`Promise`) of fallible operations become `Except` values; the
platform `fetch` function and the status-message lookup are external
collaborators and therefore appear as explicit function parameters.
-/

namespace WhereHows

/-! ## String-keyed JavaScript objects -/

/-- A JavaScript object with properties of type `α`, as an association list in
property-insertion order (JavaScript objects never hold two properties with
the same key). -/
abbrev PropMap (α : Type) := List (String × α)

/-- JavaScript property assignment `target[key] = value`: overwrite the value
of an existing key in place, otherwise append the new property at the end. -/
def setEntry {α : Type} : PropMap α → String → α → PropMap α
  | [], k, v => [(k, v)]
  | (k0, v0) :: rest, k, v =>
    if k0 = k then (k0, v) :: rest else (k0, v0) :: setEntry rest k v

/-- JavaScript property read `object[key]`. -/
def getEntry {α : Type} : PropMap α → String → Option α
  | [], _ => none
  | (k0, v0) :: rest, k => if k0 = k then some v0 else getEntry rest k

/-- `Object.assign(target, source)`: copies every own enumerable property of
the source onto the target, in the source's property order. -/
def assignEntries {α : Type} (target source : PropMap α) : PropMap α :=
  source.foldl (fun t kv => setEntry t kv.1 kv.2) target

/-- A plain string-to-string map, as used for HTTP headers. -/
abbrev Smap := PropMap String

/-! ## JSON values and `JSON.stringify` -/

/-- A JSON value (numbers restricted to integers, which suffices for every
payload this layer is specified over). -/
inductive Json where
  | null
  | bool (b : Bool)
  | num (n : Int)
  | str (s : String)
  | arr (elements : List Json)
  | obj (members : List (String × Json))

/-- The lower-case hexadecimal digit character for `n < 16`. -/
def hexDigitChar (n : Nat) : Char :=
  if n < 10 then Char.ofNat (48 + n) else Char.ofNat (87 + n)

/-- The six-character `\u00XX` escape of a control character's code. -/
def uEscape (n : Nat) : List Char :=
  '\\' :: 'u' :: '0' :: '0' :: hexDigitChar (n / 16) :: [hexDigitChar (n % 16)]

/-- JSON escaping of one character, continued: quote and backslash become
two-character escapes, other control characters a `\u00XX` escape, everything
else stands for itself. -/
def escChar (c : Char) : List Char :=
  if c = '"' then ['\\', '"']
  else if c = '\\' then ['\\', '\\']
  else if c.toNat < 32 then uEscape c.toNat
  else [c]

/-- JSON escaping of a character sequence. -/
def escList : List Char → List Char
  | [] => []
  | c :: rest => escChar c ++ escList rest

mutual

/-- `JSON.stringify`, producing the character sequence of the JSON text. -/
def stringifyChars : Json → List Char
  | .null => "null".data
  | .bool true => "true".data
  | .bool false => "false".data
  | .num n => (toString n).data
  | .str s => '"' :: (escList s.data ++ ['"'])
  | .arr elements => '[' :: (stringifyItems elements ++ [']'])
  | .obj members => '\x7b' :: (stringifyMembers members ++ ['\x7d'])

/-- The comma-separated serializations of an array's elements. -/
def stringifyItems : List Json → List Char
  | [] => []
  | [e] => stringifyChars e
  | e :: es => stringifyChars e ++ ',' :: stringifyItems es

/-- The comma-separated serializations of an object's members. -/
def stringifyMembers : List (String × Json) → List Char
  | [] => []
  | [(k, v)] => '"' :: (escList k.data ++ '"' :: ':' :: stringifyChars v)
  | (k, v) :: ms =>
    ('"' :: (escList k.data ++ '"' :: ':' :: stringifyChars v)) ++ ',' :: stringifyMembers ms

end

/-- `JSON.stringify` as a string-producing function. -/
def JSONstringify (j : Json) : String := String.mk (stringifyChars j)

/-- A value of the TypeScript type `object` (non-null and non-primitive), as
far as JSON serialization is concerned: an array or a plain object. This is
the type of `FetchConfig.data`. -/
inductive JsObjectData where
  | arr (elements : List Json)
  | obj (members : List (String × Json))

/-- The JSON value carried by an `object`-typed datum. -/
def JsObjectData.toJson : JsObjectData → Json
  | .arr elements => .arr elements
  | .obj members => .obj members

/-! ## The fetcher module (`wherehows-web/app/utils/api/fetcher.ts`) -/

/-- The caller's `headers` argument: either a plain string-to-string object or
a DOM `Headers` instance (the union type of `FetchConfig.headers`). -/
inductive HeadersArg where
  | plain (m : Smap)
  | inst (entries : Smap)

/-- The own enumerable string-keyed properties of a headers argument, i.e.
what `Object.assign` copies from it: a plain object exposes its entries, while
a DOM `Headers` instance stores its entries in internal slots and exposes no
own enumerable properties at all, so `Object.assign` copies nothing from it. -/
def ownProps : HeadersArg → Smap
  | .plain m => m
  | .inst _ => []

/-- The fetch configuration object (`FetchConfig`): this is exactly the
interface declared in the source, which has no credentials field. -/
structure FetchConfig where
  url : String
  headers : Option HeadersArg := none
  data : Option JsObjectData := none

/-- The option bag passed into a fetch call (`IFetchOptions`). -/
structure IFetchOptions where
  method : Option String := none
  body : Option String := none
  headers : Option Smap := none
  credentials : Option String := none

/-- The later operand's field wins when present (one field of an
`Object.assign` between option bags). -/
def overrideField {α : Type} (earlier later : Option α) : Option α :=
  match later with
  | some v => some v
  | none => earlier

/-- `Object.assign(target, source)` on option bags: every field the source
carries overwrites the target's. -/
def assignOptions (target source : IFetchOptions) : IFetchOptions :=
  { method := overrideField target.method source.method
    body := overrideField target.body source.body
    headers := overrideField target.headers source.headers
    credentials := overrideField target.credentials source.credentials }

/-- The two default headers installed by `withBaseFetchHeaders`. -/
def baseHeaders : Smap :=
  [("Accept", "application/json"), ("Content-Type", "application/json")]

/-- `withBaseFetchHeaders`: augments the user supplied headers with the
default accept and content-type headers, via
`Object.assign({ Accept, Content-Type }, headers)` (an absent argument, like
any `undefined` source, contributes nothing). The result is the merged map
that the source wraps as `{ headers: … }`. -/
def withBaseFetchHeaders (headers : Option HeadersArg) : Smap :=
  assignEntries baseHeaders
    (match headers with
     | none => []
     | some h => ownProps h)

/-- The option bag built by `getJSON`:
`{ ...withBaseFetchHeaders(config.headers), method: 'GET' }`. -/
def getJSONOptions (config : FetchConfig) : IFetchOptions :=
  { headers := some (withBaseFetchHeaders config.headers), method := some "GET" }

/-- The `requestBody` object of the mutating operations:
`config.data ? { body: JSON.stringify(config.data) } : {}`. -/
def requestBodyObject (config : FetchConfig) : IFetchOptions :=
  match config.data with
  | some d => { body := some (JSONstringify d.toJson) }
  | none => {}

/-- The option bag built by `postJSON`, including its second, conditional body
assignment `config.data && { body: JSON.stringify(config.data) }` (a falsy
source is skipped by `Object.assign`, so an absent datum contributes
nothing). -/
def postJSONOptions (config : FetchConfig) : IFetchOptions :=
  assignOptions
    (assignOptions
      (assignOptions (requestBodyObject config)
        (match config.data with
         | some d => { body := some (JSONstringify d.toJson) }
         | none => {}))
      { headers := some (withBaseFetchHeaders config.headers) })
    { method := some "POST" }

/-- The option bag `postJSON` would build without its second, conditional body
assignment, i.e. built exactly as `deleteJSON` and `putJSON` build theirs. -/
def postJSONOptionsSingleBody (config : FetchConfig) : IFetchOptions :=
  assignOptions
    (assignOptions (requestBodyObject config)
      { headers := some (withBaseFetchHeaders config.headers) })
    { method := some "POST" }

/-- The option bag built by `deleteJSON`. -/
def deleteJSONOptions (config : FetchConfig) : IFetchOptions :=
  assignOptions
    (assignOptions (requestBodyObject config)
      { headers := some (withBaseFetchHeaders config.headers) })
    { method := some "DELETE" }

/-- The option bag built by `putJSON`. -/
def putJSONOptions (config : FetchConfig) : IFetchOptions :=
  assignOptions
    (assignOptions (requestBodyObject config)
      { headers := some (withBaseFetchHeaders config.headers) })
    { method := some "PUT" }

/-- The option bag built by `getHeaders`:
`{ ...withBaseFetchHeaders(config.headers), method: 'HEAD' }`. -/
def getHeadersOptions (config : FetchConfig) : IFetchOptions :=
  { headers := some (withBaseFetchHeaders config.headers), method := some "HEAD" }

/-! ## Responses, errors and the request pipeline -/

/-- The errors a pending fetch pipeline can surface: a failure of the
request-execution collaborator itself (transport), the structured API error
`ApiError(statusCode, message)`, or a failure of body decoding. -/
inductive JsError where
  | transport (message : String)
  | apiError (status : Nat) (message : String)
  | decodeFailure (message : String)

/-- The response object of the request-execution collaborator: a success flag
(`ok`), a numeric status code, a header collection, and a way to obtain the
decoded body (`response.json()`, itself a pending, fallible result). -/
structure Response where
  ok : Bool
  status : Nat
  headers : Smap
  jsonBody : Except JsError Json

/-- The request-execution collaborator (`fetch`): a function from a URL and an
option bag to a pending response, which can itself fail. -/
abbrev FetchImpl := String → IFetchOptions → Except JsError Response

/-- The status-to-message lookup collaborator (`apiErrorStatusMessage`). -/
abbrev StatusMessageLookup := Nat → String

/-- Modelled from the spec: `throwIfApiError` (defined in
`wherehows-web/utils/api/errors/errors`, which is not part of this fragment's
sources). Per the spec's response handling, on a success status it resolves
with the JSON-decoded body, and on a non-success status it raises the
structured API error made of the numeric status code and the
status-to-message lookup applied to that status. -/
def throwIfApiError (apiErrorStatusMessage : StatusMessageLookup) (response : Response) :
    Except JsError Json :=
  if response.ok then response.jsonBody
  else .error (.apiError response.status (apiErrorStatusMessage response.status))

/-- `json`: sends the request and resolves with the JSON response,
`fetch(url, fetchConfig).then(response => throwIfApiError(response))`.
A rejection of the fetch itself bypasses the `then` handler. -/
def json (fetchImpl : FetchImpl) (apiErrorStatusMessage : StatusMessageLookup)
    (url : String) (fetchConfig : IFetchOptions) : Except JsError Json :=
  (fetchImpl url fetchConfig).bind (throwIfApiError apiErrorStatusMessage)

/-- `getJSON` (the spec's fetchJSON). -/
def getJSON (fetchImpl : FetchImpl) (apiErrorStatusMessage : StatusMessageLookup)
    (config : FetchConfig) : Except JsError Json :=
  json fetchImpl apiErrorStatusMessage config.url (getJSONOptions config)

/-- `postJSON` (the spec's createJSON). -/
def postJSON (fetchImpl : FetchImpl) (apiErrorStatusMessage : StatusMessageLookup)
    (config : FetchConfig) : Except JsError Json :=
  json fetchImpl apiErrorStatusMessage config.url (postJSONOptions config)

/-- `deleteJSON` (the spec's removeJSON). -/
def deleteJSON (fetchImpl : FetchImpl) (apiErrorStatusMessage : StatusMessageLookup)
    (config : FetchConfig) : Except JsError Json :=
  json fetchImpl apiErrorStatusMessage config.url (deleteJSONOptions config)

/-- `putJSON` (the spec's replaceJSON). -/
def putJSON (fetchImpl : FetchImpl) (apiErrorStatusMessage : StatusMessageLookup)
    (config : FetchConfig) : Except JsError Json :=
  json fetchImpl apiErrorStatusMessage config.url (putJSONOptions config)

/-- `getHeaders` (the spec's fetchHeaders): awaits the fetch, destructures
`ok`, `headers` and `status` off the response, resolves with the header
collection on success and otherwise throws
`new ApiError(status, apiErrorStatusMessage(status))`. The decoded body is
never touched. -/
def getHeaders (fetchImpl : FetchImpl) (apiErrorStatusMessage : StatusMessageLookup)
    (config : FetchConfig) : Except JsError Smap :=
  match fetchImpl config.url (getHeadersOptions config) with
  | .error e => .error e
  | .ok response =>
    if response.ok then .ok response.headers
    else .error (.apiError response.status (apiErrorStatusMessage response.status))

/-! ## Compliance data types (`IComplianceDataType`) -/

/-- Modelled from the spec: the enumerated default security classification
values (`Classification` in `wherehows-web/constants`, not part of this
fragment's sources), a closed set of string constants. -/
inductive Classification where
  | public
  | internalOnly
  | confidential
  | highlyConfidential

/-- The string constant of a classification value. -/
def Classification.toWire : Classification → String
  | .public => "PUBLIC"
  | .internalOnly => "INTERNAL"
  | .confidential => "CONFIDENTIAL"
  | .highlyConfidential => "HIGHLY_CONFIDENTIAL"

/-- Decodes a classification value from its string constant. -/
def Classification.ofWire (s : String) : Option Classification :=
  if s = "PUBLIC" then some .public
  else if s = "INTERNAL" then some .internalOnly
  else if s = "CONFIDENTIAL" then some .confidential
  else if s = "HIGHLY_CONFIDENTIAL" then some .highlyConfidential
  else none

/-- Modelled from the spec: the enumerated logical field formats
(`IdLogicalType` in `wherehows-web/constants`), a closed set of string
constants. -/
inductive IdLogicalType where
  | numeric
  | urnFormat
  | reversedUrn
  | compositeUrn

/-- The string constant of a logical field format. -/
def IdLogicalType.toWire : IdLogicalType → String
  | .numeric => "NUMERIC"
  | .urnFormat => "URN"
  | .reversedUrn => "REVERSED_URN"
  | .compositeUrn => "COMPOSITE_URN"

/-- Decodes a logical field format from its string constant. -/
def IdLogicalType.ofWire (s : String) : Option IdLogicalType :=
  if s = "NUMERIC" then some .numeric
  else if s = "URN" then some .urnFormat
  else if s = "REVERSED_URN" then some .reversedUrn
  else if s = "COMPOSITE_URN" then some .compositeUrn
  else none

/-- Modelled from the spec: the enumerated identifier-field tags
(`ComplianceFieldIdValue` in `wherehows-web/constants`), a closed set of
string constants. -/
inductive ComplianceFieldIdValue where
  | memberId
  | subjectMemberId
  | groupId
  | companyId

/-- The string constant of an identifier-field tag. -/
def ComplianceFieldIdValue.toWire : ComplianceFieldIdValue → String
  | .memberId => "MEMBER_ID"
  | .subjectMemberId => "SUBJECT_MEMBER_ID"
  | .groupId => "GROUP_ID"
  | .companyId => "COMPANY_ID"

/-- Decodes an identifier-field tag from its string constant. -/
def ComplianceFieldIdValue.ofWire (s : String) : Option ComplianceFieldIdValue :=
  if s = "MEMBER_ID" then some .memberId
  else if s = "SUBJECT_MEMBER_ID" then some .subjectMemberId
  else if s = "GROUP_ID" then some .groupId
  else if s = "COMPANY_ID" then some .companyId
  else none

/-- Modelled from the spec: the enumerated non-identifier logical types
(`NonIdLogicalType` in `wherehows-web/constants`), a closed set of string
constants disjoint from the identifier-field tags. -/
inductive NonIdLogicalType where
  | name
  | email
  | phone
  | address

/-- The string constant of a non-identifier logical type. -/
def NonIdLogicalType.toWire : NonIdLogicalType → String
  | .name => "NAME"
  | .email => "EMAIL"
  | .phone => "PHONE"
  | .address => "ADDRESS"

/-- Decodes a non-identifier logical type from its string constant. -/
def NonIdLogicalType.ofWire (s : String) : Option NonIdLogicalType :=
  if s = "NAME" then some .name
  else if s = "EMAIL" then some .email
  else if s = "PHONE" then some .phone
  else if s = "ADDRESS" then some .address
  else none

/-- The `id` field's union type, `ComplianceFieldIdValue | NonIdLogicalType`. -/
inductive ComplianceFieldId where
  | idValue (v : ComplianceFieldIdValue)
  | nonId (v : NonIdLogicalType)

/-- The string constant of an `id` value. -/
def ComplianceFieldId.toWire : ComplianceFieldId → String
  | .idValue v => v.toWire
  | .nonId v => v.toWire

/-- Decodes an `id` value from its string constant, trying the
identifier-field enumeration first. -/
def ComplianceFieldId.ofWire (s : String) : Option ComplianceFieldId :=
  match ComplianceFieldIdValue.ofWire s with
  | some v => some (.idValue v)
  | none => (NonIdLogicalType.ofWire s).map .nonId

/-- `IComplianceDataType`: the compliance data type record. The source's
`$URN` field is named `urn` here (`$` cannot appear in a Lean name). -/
structure IComplianceDataType where
  pii : Bool
  idType : Bool
  defaultSecurityClassification : Classification
  title : String
  urn : String
  supportedFieldFormats : List IdLogicalType
  id : ComplianceFieldId
  description : Option String := none

/-- Modelled from the spec: the members of the JSON object a compliance data
type record serializes to, field by field; an absent `description` is omitted
from the object, as `JSON.stringify` omits `undefined`-valued properties. -/
def complianceDataTypeMembers (r : IComplianceDataType) : List (String × Json) :=
  [("pii", .bool r.pii),
    ("idType", .bool r.idType),
    ("defaultSecurityClassification", .str r.defaultSecurityClassification.toWire),
    ("title", .str r.title),
    ("$URN", .str r.urn),
    ("supportedFieldFormats",
      .arr (r.supportedFieldFormats.map (fun t => .str t.toWire))),
    ("id", .str r.id.toWire)] ++
    (match r.description with
     | some d => [("description", .str d)]
     | none => [])

/-- Modelled from the spec: the JSON serialization of a compliance data type
record. -/
def complianceDataTypeToJson (r : IComplianceDataType) : Json :=
  .obj (complianceDataTypeMembers r)

/-- Decodes the element list of the `supportedFieldFormats` array. -/
def decodeFormats : List Json → Option (List IdLogicalType)
  | [] => some []
  | .str s :: rest =>
    match IdLogicalType.ofWire s, decodeFormats rest with
    | some t, some ts => some (t :: ts)
    | _, _ => none
  | _ :: _ => none

/-- Modelled from the spec: decoding a compliance data type record from a
parsed JSON value, field by field; a missing or non-string `description`
member decodes as an absent description. -/
def complianceDataTypeFromJson (j : Json) : Option IComplianceDataType :=
  match j with
  | .obj ms =>
    match getEntry ms "pii", getEntry ms "idType",
        getEntry ms "defaultSecurityClassification", getEntry ms "title",
        getEntry ms "$URN", getEntry ms "supportedFieldFormats", getEntry ms "id" with
    | some (.bool pii), some (.bool idType), some (.str cls), some (.str title),
        some (.str urn), some (.arr fmts), some (.str idStr) =>
      match Classification.ofWire cls, decodeFormats fmts, ComplianceFieldId.ofWire idStr with
      | some c, some ts, some i =>
        some
          { pii := pii
            idType := idType
            defaultSecurityClassification := c
            title := title
            urn := urn
            supportedFieldFormats := ts
            id := i
            description :=
              match getEntry ms "description" with
              | some (.str d) => some d
              | _ => none }
      | _, _, _ => none
    | _, _, _, _, _, _, _ => none
  | _ => none

/-- Serializes a compliance data type record to JSON text. -/
def serializeComplianceDataType (r : IComplianceDataType) : String :=
  JSONstringify (complianceDataTypeToJson r)

/-! ## A JSON parser (`JSON.parse`)

Modelled from the spec: body decoding and the round-trip's decode direction
use the platform's `JSON.parse`, which is not part of this fragment's
sources. The parser below accepts whitespace-free JSON texts (the serializer
above emits none). -/

/-- Decodes one hexadecimal digit character. -/
def decodeHexDigit (c : Char) : Option Nat :=
  if 48 ≤ c.toNat ∧ c.toNat ≤ 57 then some (c.toNat - 48)
  else if 97 ≤ c.toNat ∧ c.toNat ≤ 102 then some (c.toNat - 87)
  else if 65 ≤ c.toNat ∧ c.toNat ≤ 70 then some (c.toNat - 55)
  else none

/-- Decodes one escape character (the character after a backslash, other than
`u`). -/
def unescapeChar (c : Char) : Option Char :=
  if c = '"' then some '"'
  else if c = '\\' then some '\\'
  else if c = '/' then some '/'
  else if c = 'n' then some '\n'
  else if c = 't' then some '\t'
  else if c = 'r' then some '\r'
  else if c = 'b' then some (Char.ofNat 8)
  else if c = 'f' then some (Char.ofNat 12)
  else none

/-- Scans a JSON string body (everything after the opening quote) up to and
including the closing quote, undoing escapes; yields the string's characters
and the remaining input. -/
def scanStringBody : List Char → Option (List Char × List Char)
  | [] => none
  | '"' :: rest => some ([], rest)
  | '\\' :: 'u' :: e1 :: e2 :: e3 :: e4 :: rem =>
    match decodeHexDigit e1, decodeHexDigit e2, decodeHexDigit e3, decodeHexDigit e4 with
    | some v1, some v2, some v3, some v4 =>
      match scanStringBody rem with
      | some (tl, after) =>
        some (Char.ofNat (((v1 * 16 + v2) * 16 + v3) * 16 + v4) :: tl, after)
      | none => none
    | _, _, _, _ => none
  | '\\' :: e :: rest2 =>
    match unescapeChar e with
    | some ch =>
      match scanStringBody rest2 with
      | some (tl, after) => some (ch :: tl, after)
      | none => none
    | none => none
  | c :: rest =>
    match scanStringBody rest with
    | some (tl, after) => some (c :: tl, after)
    | none => none

/-- Is `c` a decimal digit? -/
def isDigitChar (c : Char) : Bool := 48 ≤ c.toNat ∧ c.toNat ≤ 57

/-- Scans a maximal run of decimal digits. -/
def scanDigits : List Char → List Char × List Char
  | [] => ([], [])
  | c :: rest =>
    if isDigitChar c then
      match scanDigits rest with
      | (ds, after) => (c :: ds, after)
    else ([], c :: rest)

/-- The natural number denoted by a digit run. -/
def digitsToNat (ds : List Char) : Nat :=
  ds.foldl (fun acc c => acc * 10 + (c.toNat - 48)) 0

/-- Scans a JSON integer literal (optional minus sign, then digits). -/
def scanInt : List Char → Option (Int × List Char)
  | [] => none
  | c :: rest =>
    if c = '-' then
      match scanDigits rest with
      | ([], _) => none
      | (ds, after) => some (-(digitsToNat ds : Int), after)
    else
      match scanDigits (c :: rest) with
      | ([], _) => none
      | (ds, after) => some ((digitsToNat ds : Int), after)

mutual

/-- Parses one JSON value off the input (fuel-driven; every recursive call
spends one unit, so any fuel of at least the remaining input's length
suffices). -/
def jparse : Nat → List Char → Option (Json × List Char)
  | 0, _ => none
  | _ + 1, 'n' :: 'u' :: 'l' :: 'l' :: rem => some (.null, rem)
  | _ + 1, 't' :: 'r' :: 'u' :: 'e' :: rem => some (.bool true, rem)
  | _ + 1, 'f' :: 'a' :: 'l' :: 's' :: 'e' :: rem => some (.bool false, rem)
  | _ + 1, '"' :: rest =>
    match scanStringBody rest with
    | some (cs, rem) => some (.str (String.mk cs), rem)
    | none => none
  | _ + 1, '[' :: ']' :: rem => some (.arr [], rem)
  | fuel + 1, '[' :: rest =>
    match jparseItems fuel rest with
    | some (vs, rem) => some (.arr vs, rem)
    | none => none
  | _ + 1, '\x7b' :: '\x7d' :: rem => some (.obj [], rem)
  | fuel + 1, '\x7b' :: rest =>
    match jparseMembers fuel rest with
    | some (ms, rem) => some (.obj ms, rem)
    | none => none
  | _ + 1, cs =>
    match scanInt cs with
    | some (n, rem) => some (.num n, rem)
    | none => none

/-- Parses one or more comma-separated array elements and the closing
bracket. -/
def jparseItems : Nat → List Char → Option (List Json × List Char)
  | 0, _ => none
  | fuel + 1, cs =>
    match jparse fuel cs with
    | none => none
    | some (v, rest) =>
      match rest with
      | ',' :: rest2 =>
        match jparseItems fuel rest2 with
        | some (vs, rem) => some (v :: vs, rem)
        | none => none
      | ']' :: rem => some ([v], rem)
      | _ => none

/-- Parses one or more comma-separated object members and the closing
brace. -/
def jparseMembers : Nat → List Char → Option (List (String × Json) × List Char)
  | 0, _ => none
  | fuel + 1, '"' :: rest =>
    match scanStringBody rest with
    | none => none
    | some (kcs, rest1) =>
      match rest1 with
      | ':' :: rest2 =>
        match jparse fuel rest2 with
        | none => none
        | some (v, rest3) =>
          match rest3 with
          | ',' :: rest4 =>
            match jparseMembers fuel rest4 with
            | some (ms, rem) => some ((String.mk kcs, v) :: ms, rem)
            | none => none
          | '\x7d' :: rem => some ([(String.mk kcs, v)], rem)
          | _ => none
      | _ => none
  | _ + 1, _ => none

end

/-- `JSON.parse`: parses a complete JSON text (the whole input must be
consumed). -/
def JSONparse (s : String) : Option Json :=
  match jparse (s.data.length + 1) s.data with
  | some (j, []) => some j
  | _ => none

/-- Decodes a compliance data type record from JSON text. -/
def parseComplianceDataType (s : String) : Option IComplianceDataType :=
  match JSONparse s with
  | some j => complianceDataTypeFromJson j
  | none => none

/-- Modelled from the spec: the public contract's configuration record, which
also carries an optional `credentialsPolicy` enumerated credentials mode. The
implementation's `FetchConfig` interface has no such field; TypeScript's
structural typing still lets a caller hand over a record carrying one. -/
structure FetchConfigSpec where
  url : String
  headers : Option HeadersArg := none
  data : Option JsObjectData := none
  credentialsPolicy : Option String := none

/-- What the implementation reads off the record it is given: only `url`,
`headers` and `data`. -/
def FetchConfigSpec.toConfig (c : FetchConfigSpec) : FetchConfig :=
  { url := c.url, headers := c.headers, data := c.data }

/-! ## A heap model for the frame property

The functional embedding above cannot express mutation, so the frame claim —
the operations never mutate their input configuration — is settled over an
explicit heap of JavaScript objects. Object-valued properties hold
references; `Object.assign` is a write to its target object's heap cell. Each
operation's object work is replayed against the heap: the configuration
object, its headers object and its data object live at pre-existing
references, while every `Object.assign` target is a freshly allocated
literal. -/

/-- A heap-resident JavaScript property value: a string or a reference to
another heap object. -/
inductive JsVal where
  | str (s : String)
  | ref (r : Nat)

/-- A heap-resident JavaScript object. -/
abbrev JsObject := PropMap JsVal

/-- A heap of JavaScript objects; references are list indices, allocation
appends. -/
structure Heap where
  objects : List JsObject

/-- Reads the object at a reference. -/
def Heap.read (h : Heap) (r : Nat) : Option JsObject := h.objects[r]?

/-- Allocates a fresh object, returning its reference. -/
def Heap.alloc (h : Heap) (o : JsObject) : Heap × Nat :=
  (⟨h.objects ++ [o]⟩, h.objects.length)

/-- Overwrites the object at a reference (a mutation of that object). -/
def Heap.write (h : Heap) (r : Nat) (o : JsObject) : Heap :=
  ⟨h.objects.set r o⟩

/-- The two default headers, as a heap object literal. -/
def baseHeadersObject : JsObject :=
  [("Accept", .str "application/json"), ("Content-Type", .str "application/json")]

/-- `withBaseFetchHeaders` against the heap: allocates the fresh
`{ Accept, Content-Type }` literal, then `Object.assign`s the caller's
headers object (read through its reference) onto that fresh literal — the
only write targets the fresh object. Yields the heap and the reference of the
merged headers object. -/
def withBaseFetchHeadersHeap (h : Heap) (headersRef : Option Nat) : Heap × Nat :=
  let h1 := (h.alloc baseHeadersObject).1
  let fresh := (h.alloc baseHeadersObject).2
  match headersRef with
  | none => (h1, fresh)
  | some r =>
    (h1.write fresh (assignEntries baseHeadersObject ((h1.read r).getD [])), fresh)

/-- `getJSON`'s object work against the heap: the spread
`{ ...withBaseFetchHeaders(config.headers), method: 'GET' }` builds a fresh
object. Yields the reference of the option bag handed to `fetch`. -/
def getJSONOptionsHeap (h : Heap) (headersRef : Option Nat) : Heap × Nat :=
  let h1 := (withBaseFetchHeadersHeap h headersRef).1
  let merged := (withBaseFetchHeadersHeap h headersRef).2
  h1.alloc [("headers", .ref merged), ("method", .str "GET")]

/-- The object work shared by `postJSON`, `deleteJSON` and `putJSON` against
the heap: allocate the fresh `requestBody` literal (`JSON.stringify` only
reads the data object), build the merged headers object, then `Object.assign`
the remaining option-bag sources onto `requestBody` — again the only write
targets freshly allocated objects. `bodySources` replays each operation's
list of body sources (`postJSON` assigns its conditional body object a second
time). -/
def mutatingOptionsHeap (h : Heap) (headersRef : Option Nat) (body : Option String)
    (extraBodySource : Bool) (method : String) : Heap × Nat :=
  let rbLit : JsObject := match body with | some b => [("body", .str b)] | none => []
  let h1 := (h.alloc rbLit).1
  let rbRef := (h.alloc rbLit).2
  let h2 := (withBaseFetchHeadersHeap h1 headersRef).1
  let merged := (withBaseFetchHeadersHeap h1 headersRef).2
  let rb := (h2.read rbRef).getD []
  (h2.write rbRef
    (assignEntries
      (assignEntries
        (assignEntries rb
          (if extraBodySource then rbLit else []))
        [("headers", .ref merged)])
      [("method", .str method)]), rbRef)

/-- `getHeaders`'s object work against the heap (a spread, like
`getJSON`'s). -/
def getHeadersOptionsHeap (h : Heap) (headersRef : Option Nat) : Heap × Nat :=
  let h1 := (withBaseFetchHeadersHeap h headersRef).1
  let merged := (withBaseFetchHeadersHeap h headersRef).2
  h1.alloc [("headers", .ref merged), ("method", .str "HEAD")]

/-! ## Property-map lemmas -/

theorem getEntry_setEntry_self {α : Type} (m : PropMap α) (k : String) (v : α) :
    getEntry (setEntry m k v) k = some v := by
  induction m with
  | nil => simp [setEntry, getEntry]
  | cons kv rest ih =>
    obtain ⟨k0, v0⟩ := kv
    by_cases h : k0 = k
    · subst h; simp [setEntry, getEntry]
    · simp [setEntry, getEntry, h, ih]

theorem getEntry_setEntry_of_ne {α : Type} (m : PropMap α) {j k : String} (v : α)
    (hne : j ≠ k) : getEntry (setEntry m k v) j = getEntry m j := by
  induction m with
  | nil =>
    have hkj : ¬k = j := fun h => hne h.symm
    simp [setEntry, getEntry, hkj]
  | cons kv rest ih =>
    obtain ⟨k0, v0⟩ := kv
    by_cases h : k0 = k
    · subst h
      have hkj : ¬k0 = j := fun h2 => hne h2.symm
      simp [setEntry, getEntry, hkj]
    · by_cases hj : k0 = j
      · subst hj; simp [setEntry, getEntry, h]
      · simp [setEntry, getEntry, h, hj, ih]

theorem getEntry_eq_none_of_not_mem {α : Type} (m : PropMap α) (k : String)
    (h : k ∉ m.map Prod.fst) : getEntry m k = none := by
  induction m with
  | nil => simp [getEntry]
  | cons kv rest ih =>
    obtain ⟨k0, v0⟩ := kv
    simp only [List.map_cons, List.mem_cons] at h
    push_neg at h
    have hne : ¬k0 = k := fun h2 => h.1 h2.symm
    simp [getEntry, hne, ih h.2]

theorem assignEntries_cons {α : Type} (target : PropMap α) (k : String) (v : α)
    (rest : PropMap α) :
    assignEntries target ((k, v) :: rest) = assignEntries (setEntry target k v) rest := rfl

/-- The merge law of `Object.assign`, part two: a key the source does not
carry reads as the target's value. -/
theorem getEntry_assignEntries_of_target {α : Type} (source : PropMap α)
    (hnd : (source.map Prod.fst).Nodup) (target : PropMap α) (k : String)
    (hk : getEntry source k = none) :
    getEntry (assignEntries target source) k = getEntry target k := by
  induction source generalizing target with
  | nil => rfl
  | cons kv rest ih =>
    obtain ⟨k0, v0⟩ := kv
    simp only [List.map_cons, List.nodup_cons] at hnd
    rw [assignEntries_cons]
    by_cases h : k0 = k
    · subst h; simp [getEntry] at hk
    · simp only [getEntry, if_neg h] at hk
      rw [ih hnd.2 (setEntry target k0 v0) hk]
      exact getEntry_setEntry_of_ne target v0 (fun h2 => h h2.symm)

/-- The merge law of `Object.assign` on property maps whose source has no
duplicate keys (JavaScript objects never do), part one: a key the source
carries reads as the source's value. -/
theorem getEntry_assignEntries_of_source {α : Type} (source : PropMap α)
    (hnd : (source.map Prod.fst).Nodup) (target : PropMap α) (k : String) (v : α)
    (hk : getEntry source k = some v) :
    getEntry (assignEntries target source) k = some v := by
  induction source generalizing target with
  | nil => simp [getEntry] at hk
  | cons kv rest ih =>
    obtain ⟨k0, v0⟩ := kv
    simp only [List.map_cons, List.nodup_cons] at hnd
    rw [assignEntries_cons]
    by_cases h : k0 = k
    · subst h
      simp only [getEntry, if_pos rfl] at hk
      obtain rfl : v0 = v := Option.some.inj hk
      have hnone : getEntry rest k0 = none := getEntry_eq_none_of_not_mem rest k0 hnd.1
      calc getEntry (assignEntries (setEntry target k0 v0) rest) k0
          = getEntry (setEntry target k0 v0) k0 :=
            getEntry_assignEntries_of_target rest hnd.2 (setEntry target k0 v0) k0 hnone
        _ = some v0 := getEntry_setEntry_self target k0 v0
    · simp only [getEntry, if_neg h] at hk
      exact ih hnd.2 (setEntry target k0 v0) hk

/-! ## Claim theorems: header merging, body policy, option-bag equality -/

/-- C2: for every configuration whose caller headers are a plain
string-to-string object, every one of the five operations issues its request
with the merged header map; on that map, every key the caller supplies reads
as the caller's value, and any other key reads as the default map's value —
in particular the `Accept` and `Content-Type` defaults are preserved whenever
the caller does not set them. -/
theorem issued_headers_merge_defaults_with_caller_override
    (config : FetchConfig) (m : Smap)
    (hm : config.headers = some (.plain m)) (hnd : (m.map Prod.fst).Nodup) :
    (getJSONOptions config).headers = some (withBaseFetchHeaders config.headers) ∧
    (postJSONOptions config).headers = some (withBaseFetchHeaders config.headers) ∧
    (deleteJSONOptions config).headers = some (withBaseFetchHeaders config.headers) ∧
    (putJSONOptions config).headers = some (withBaseFetchHeaders config.headers) ∧
    (getHeadersOptions config).headers = some (withBaseFetchHeaders config.headers) ∧
    (∀ k v, getEntry m k = some v →
      getEntry (withBaseFetchHeaders config.headers) k = some v) ∧
    (∀ k, getEntry m k = none →
      getEntry (withBaseFetchHeaders config.headers) k = getEntry baseHeaders k) ∧
    getEntry baseHeaders "Accept" = some "application/json" ∧
    getEntry baseHeaders "Content-Type" = some "application/json" := by
  refine ⟨rfl, ?_, ?_, ?_, rfl, ?_, ?_, rfl, by decide⟩
  · cases hd : config.data <;>
      simp [postJSONOptions, assignOptions, overrideField, requestBodyObject, hd]
  · cases hd : config.data <;>
      simp [deleteJSONOptions, assignOptions, overrideField, requestBodyObject, hd]
  · cases hd : config.data <;>
      simp [putJSONOptions, assignOptions, overrideField, requestBodyObject, hd]
  · intro k v hk
    rw [hm]
    simp only [withBaseFetchHeaders, ownProps]
    exact getEntry_assignEntries_of_source m hnd baseHeaders k v hk
  · intro k hk
    rw [hm]
    simp only [withBaseFetchHeaders, ownProps]
    exact getEntry_assignEntries_of_target m hnd baseHeaders k hk

/-- C2 witness: a caller override of `Content-Type` wins while the `Accept`
default survives. -/
theorem issued_headers_merge_witness :
    (getJSONOptions
        { url := "/api", headers := some (.plain [("Content-Type", "text/plain")]) }).headers =
      some (withBaseFetchHeaders (some (.plain [("Content-Type", "text/plain")]))) ∧
    getEntry (withBaseFetchHeaders (some (.plain [("Content-Type", "text/plain")])))
        "Content-Type" = some "text/plain" ∧
    getEntry (withBaseFetchHeaders (some (.plain [("Content-Type", "text/plain")])))
        "Accept" = some "application/json" := by
  have h := issued_headers_merge_defaults_with_caller_override
    { url := "/api", headers := some (.plain [("Content-Type", "text/plain")]) }
    [("Content-Type", "text/plain")] rfl (by decide)
  refine ⟨h.1, ?_, ?_⟩
  · exact h.2.2.2.2.2.1 "Content-Type" "text/plain" (by decide)
  · rw [h.2.2.2.2.2.2.1 "Accept" (by decide)]; decide

/-- C3: the three mutating operations attach `JSON.stringify(config.data)` as
the request body exactly when `data` is present, and no body field at all
when it is absent — uniformly for POST, DELETE and PUT. -/
theorem mutating_ops_body_policy (config : FetchConfig) :
    (postJSONOptions config).body = config.data.map (fun d => JSONstringify d.toJson) ∧
    (deleteJSONOptions config).body = config.data.map (fun d => JSONstringify d.toJson) ∧
    (putJSONOptions config).body = config.data.map (fun d => JSONstringify d.toJson) := by
  refine ⟨?_, ?_, ?_⟩ <;>
    cases hd : config.data <;>
      simp [postJSONOptions, deleteJSONOptions, putJSONOptions, assignOptions,
        overrideField, requestBodyObject, hd]

/-- C8: for every configuration, the option bags built by `postJSON`,
`deleteJSON` and `putJSON` agree except for the method string, and
`postJSON`'s second, conditional body assignment is redundant: dropping it
(`postJSONOptionsSingleBody`) yields the very same option bag. -/
theorem mutating_ops_differ_only_in_method (config : FetchConfig) :
    postJSONOptions config = { deleteJSONOptions config with method := some "POST" } ∧
    putJSONOptions config = { deleteJSONOptions config with method := some "PUT" } ∧
    postJSONOptions config = postJSONOptionsSingleBody config ∧
    (postJSONOptions config).method = some "POST" ∧
    (deleteJSONOptions config).method = some "DELETE" ∧
    (putJSONOptions config).method = some "PUT" := by
  refine ⟨?_, ?_, ?_, rfl, rfl, rfl⟩ <;>
    cases hd : config.data <;>
      simp [postJSONOptions, postJSONOptionsSingleBody, deleteJSONOptions, putJSONOptions,
        assignOptions, overrideField, requestBodyObject, hd]

/-- C9: when the caller's headers argument is a DOM `Headers` instance rather
than a plain object, `Object.assign` copies none of its entries (a `Headers`
instance has no own enumerable string-keyed properties), so the merged header
map issued with every request is exactly the two defaults. -/
theorem headers_instance_contributes_nothing (entries : Smap) (url : String)
    (data : Option JsObjectData) :
    withBaseFetchHeaders (some (.inst entries)) = baseHeaders ∧
    baseHeaders = [("Accept", "application/json"), ("Content-Type", "application/json")] ∧
    (getJSONOptions { url := url, headers := some (.inst entries), data := data }).headers =
      some baseHeaders ∧
    (postJSONOptions { url := url, headers := some (.inst entries), data := data }).headers =
      some baseHeaders ∧
    (deleteJSONOptions { url := url, headers := some (.inst entries), data := data }).headers =
      some baseHeaders ∧
    (putJSONOptions { url := url, headers := some (.inst entries), data := data }).headers =
      some baseHeaders ∧
    (getHeadersOptions { url := url, headers := some (.inst entries), data := data }).headers =
      some baseHeaders := by
  refine ⟨rfl, rfl, rfl, ?_, ?_, ?_, rfl⟩ <;>
    cases data <;> rfl

/-- C5 counterexample: the claim that a configuration's `credentialsPolicy`
is forwarded to the underlying request call is false — the implementation's
`FetchConfig` has no such field and the operations read only `url`, `headers`
and `data`, so a caller-supplied credentials mode never reaches the issued
option bag. -/
theorem credentials_policy_not_forwarded_cex :
    ¬ (∀ (cfg : FetchConfigSpec) (c : String), cfg.credentialsPolicy = some c →
        (getJSONOptions cfg.toConfig).credentials = some c ∧
        (postJSONOptions cfg.toConfig).credentials = some c ∧
        (deleteJSONOptions cfg.toConfig).credentials = some c ∧
        (putJSONOptions cfg.toConfig).credentials = some c ∧
        (getHeadersOptions cfg.toConfig).credentials = some c) := by
  intro hclaim
  have h := hclaim { url := "/api/v1/datasets", credentialsPolicy := some "include" }
    "include" rfl
  exact absurd h.1 (by decide)

/-- C5 as amended: no credentials mode is ever forwarded — even when the
caller's record carries a `credentialsPolicy`, the option bag every operation
hands to the request-execution collaborator has no credentials field. -/
theorem credentials_policy_never_forwarded (cfg : FetchConfigSpec) :
    (getJSONOptions cfg.toConfig).credentials = none ∧
    (postJSONOptions cfg.toConfig).credentials = none ∧
    (deleteJSONOptions cfg.toConfig).credentials = none ∧
    (putJSONOptions cfg.toConfig).credentials = none ∧
    (getHeadersOptions cfg.toConfig).credentials = none := by
  refine ⟨rfl, ?_, ?_, ?_, rfl⟩ <;>
    cases hd : cfg.data <;>
      simp [postJSONOptions, deleteJSONOptions, putJSONOptions, assignOptions,
        overrideField, requestBodyObject, FetchConfigSpec.toConfig, hd]

/-! ## Claim theorems: response handling and error propagation -/

/-- C1: whenever the request-execution collaborator yields a response whose
success flag is false, each of the four JSON-returning operations and
`getHeaders` fails with the structured API error made of the response's
numeric status and the status-to-message lookup applied to that status; and
this is the only error kind the layer manufactures — every other failure of
the pipeline is the collaborator's own failure value or the body decoder's
own failure value, surfaced as is. -/
theorem json_ops_nonsuccess_structured_api_error
    (fetchImpl : FetchImpl) (msg : StatusMessageLookup) (config : FetchConfig) :
    (∀ r : Response, (∀ u o, fetchImpl u o = .ok r) → r.ok = false →
      getJSON fetchImpl msg config = .error (.apiError r.status (msg r.status)) ∧
      postJSON fetchImpl msg config = .error (.apiError r.status (msg r.status)) ∧
      deleteJSON fetchImpl msg config = .error (.apiError r.status (msg r.status)) ∧
      putJSON fetchImpl msg config = .error (.apiError r.status (msg r.status)) ∧
      getHeaders fetchImpl msg config = .error (.apiError r.status (msg r.status))) ∧
    (∀ url opts e, json fetchImpl msg url opts = .error e →
      fetchImpl url opts = .error e ∨
      ∃ r : Response, fetchImpl url opts = .ok r ∧
        ((r.ok = true ∧ r.jsonBody = .error e) ∨
          (r.ok = false ∧ e = .apiError r.status (msg r.status)))) ∧
    (∀ e, getHeaders fetchImpl msg config = .error e →
      fetchImpl config.url (getHeadersOptions config) = .error e ∨
      ∃ r : Response, fetchImpl config.url (getHeadersOptions config) = .ok r ∧
        r.ok = false ∧ e = .apiError r.status (msg r.status)) := by
  refine ⟨?_, ?_, ?_⟩
  · intro r hr hok
    refine ⟨?_, ?_, ?_, ?_, ?_⟩ <;>
      simp [getJSON, postJSON, deleteJSON, putJSON, getHeaders, json, throwIfApiError,
        Except.bind, hr, hok]
  · intro url opts e hjson
    cases hfetch : fetchImpl url opts with
    | error e2 =>
      left
      simp only [json, hfetch, Except.bind] at hjson
      have he : e2 = e := by simpa using hjson
      exact congrArg Except.error he
    | ok r =>
      right
      refine ⟨r, rfl, ?_⟩
      simp only [json, hfetch, Except.bind, throwIfApiError] at hjson
      cases hok : r.ok with
      | true =>
        left
        rw [hok] at hjson
        simp only [if_pos rfl] at hjson
        exact ⟨rfl, hjson⟩
      | false =>
        right
        rw [hok] at hjson
        simp only [Bool.false_eq_true, if_false] at hjson
        exact ⟨rfl, (Except.error.inj hjson).symm⟩
  · intro e hget
    cases hfetch : fetchImpl config.url (getHeadersOptions config) with
    | error e2 =>
      left
      simp only [getHeaders, hfetch] at hget
      have he : e2 = e := by simpa using hget
      exact congrArg Except.error he
    | ok r =>
      right
      refine ⟨r, rfl, ?_⟩
      simp only [getHeaders, hfetch] at hget
      cases hok : r.ok with
      | true => rw [hok] at hget; simp at hget
      | false =>
        rw [hok] at hget
        simp only [Bool.false_eq_true, if_false] at hget
        exact ⟨rfl, (Except.error.inj hget).symm⟩

/-- C1 witness: against a stub collaborator answering every request with a
failed response of status 404, `getJSON` fails with the structured API error
`(404, lookup 404)`. -/
theorem json_ops_nonsuccess_witness :
    getJSON
        (fun _ _ => .ok { ok := false, status := 404, headers := [], jsonBody := .ok .null })
        (fun _ => "Not Found") { url := "/api/v1/datasets" } =
      .error (.apiError 404 "Not Found") := by
  exact ((json_ops_nonsuccess_structured_api_error
    (fun _ _ => .ok { ok := false, status := 404, headers := [], jsonBody := .ok .null })
    (fun _ => "Not Found") { url := "/api/v1/datasets" }).1
    { ok := false, status := 404, headers := [], jsonBody := .ok .null }
    (fun _ _ => rfl) rfl).1

/-- C4: `getHeaders` issues a HEAD request; when the response's success flag
is true it resolves with exactly the response's header collection, when the
flag is false it raises the structured API error built from the status and
the lookup, and in both cases the decoded body is never consulted: its result
is unchanged under any replacement of the response's body. -/
theorem getHeaders_head_request_no_body_decode
    (fetchImpl : FetchImpl) (msg : StatusMessageLookup) (config : FetchConfig) :
    (getHeadersOptions config).method = some "HEAD" ∧
    (∀ r : Response, fetchImpl config.url (getHeadersOptions config) = .ok r →
      r.ok = true → getHeaders fetchImpl msg config = .ok r.headers) ∧
    (∀ r : Response, fetchImpl config.url (getHeadersOptions config) = .ok r →
      r.ok = false →
      getHeaders fetchImpl msg config = .error (.apiError r.status (msg r.status))) ∧
    (∀ (r : Response) (b : Except JsError Json),
      getHeaders (fun _ _ => .ok { r with jsonBody := b }) msg config =
        getHeaders (fun _ _ => .ok r) msg config) := by
  refine ⟨rfl, ?_, ?_, ?_⟩
  · intro r hr hok
    simp [getHeaders, hr, hok]
  · intro r hr hok
    simp [getHeaders, hr, hok]
  · intro r b
    simp only [getHeaders]

/-- C4 witness: against a success-status stub, `getHeaders` resolves with
exactly the stub's header collection. -/
theorem getHeaders_head_request_witness :
    getHeaders
        (fun _ _ => .ok
          { ok := true, status := 200, headers := [("ETag", "xyz")],
            jsonBody := .error (.decodeFailure "no body") })
        (fun _ => "OK") { url := "/api/v1/datasets" } =
      .ok [("ETag", "xyz")] := by
  exact (getHeaders_head_request_no_body_decode
    (fun _ _ => .ok
      { ok := true, status := 200, headers := [("ETag", "xyz")],
        jsonBody := .error (.decodeFailure "no body") })
    (fun _ => "OK") { url := "/api/v1/datasets" }).2.1
    { ok := true, status := 200, headers := [("ETag", "xyz")],
      jsonBody := .error (.decodeFailure "no body") } rfl rfl

/-- C6: when the request-execution collaborator itself fails, every one of
the five operations surfaces exactly that failure value, unchanged — whatever
it is, even one that happens to look like an API error. -/
theorem collaborator_failure_propagates_unchanged
    (fetchImpl : FetchImpl) (msg : StatusMessageLookup) (config : FetchConfig)
    (e : JsError) :
    (fetchImpl config.url (getJSONOptions config) = .error e →
      getJSON fetchImpl msg config = .error e) ∧
    (fetchImpl config.url (postJSONOptions config) = .error e →
      postJSON fetchImpl msg config = .error e) ∧
    (fetchImpl config.url (deleteJSONOptions config) = .error e →
      deleteJSON fetchImpl msg config = .error e) ∧
    (fetchImpl config.url (putJSONOptions config) = .error e →
      putJSON fetchImpl msg config = .error e) ∧
    (fetchImpl config.url (getHeadersOptions config) = .error e →
      getHeaders fetchImpl msg config = .error e) := by
  refine ⟨?_, ?_, ?_, ?_, ?_⟩ <;> intro h <;>
    simp [getJSON, postJSON, deleteJSON, putJSON, getHeaders, json, Except.bind, h]

/-- C6 witness: a transport failure of the collaborator comes back from
`getJSON` unchanged. -/
theorem collaborator_failure_propagates_witness :
    getJSON (fun _ _ => .error (.transport "connection refused")) (fun _ => "msg")
        { url := "/api/v1/datasets" } =
      .error (.transport "connection refused") := by
  exact (collaborator_failure_propagates_unchanged
    (fun _ _ => .error (.transport "connection refused")) (fun _ => "msg")
    { url := "/api/v1/datasets" } (.transport "connection refused")).1 rfl

/-! ## Heap lemmas and the frame claim -/

theorem Heap.read_alloc (h : Heap) (o : JsObject) (i : Nat)
    (hi : i < h.objects.length) : (h.alloc o).1.read i = h.read i := by
  simp [Heap.alloc, Heap.read, List.getElem?_append_left hi]

theorem Heap.alloc_ref (h : Heap) (o : JsObject) : (h.alloc o).2 = h.objects.length := rfl

theorem Heap.alloc_length (h : Heap) (o : JsObject) :
    (h.alloc o).1.objects.length = h.objects.length + 1 := by
  simp [Heap.alloc]

theorem Heap.read_write_of_ne (h : Heap) (r : Nat) (o : JsObject) (i : Nat)
    (hne : i ≠ r) : (h.write r o).read i = h.read i := by
  simp [Heap.write, Heap.read, List.getElem?_set_ne (fun h2 => hne h2.symm)]

theorem Heap.write_length (h : Heap) (r : Nat) (o : JsObject) :
    (h.write r o).objects.length = h.objects.length := by
  simp [Heap.write]

/-- `withBaseFetchHeaders`, replayed against the heap, leaves every
pre-existing object untouched; the merged headers object it yields is the
freshly allocated one, and the heap only grew. -/
theorem withBaseFetchHeadersHeap_frame (h : Heap) (headersRef : Option Nat) :
    (∀ i, i < h.objects.length →
      (withBaseFetchHeadersHeap h headersRef).1.read i = h.read i) ∧
    (withBaseFetchHeadersHeap h headersRef).2 = h.objects.length ∧
    (withBaseFetchHeadersHeap h headersRef).1.objects.length = h.objects.length + 1 := by
  have hfresh : (h.alloc baseHeadersObject).2 = h.objects.length := rfl
  cases headersRef with
  | none =>
    refine ⟨fun i hi => ?_, rfl, ?_⟩
    · simp only [withBaseFetchHeadersHeap]
      exact Heap.read_alloc h baseHeadersObject i hi
    · simp [withBaseFetchHeadersHeap, Heap.alloc_length]
  | some r =>
    refine ⟨fun i hi => ?_, rfl, ?_⟩
    · simp only [withBaseFetchHeadersHeap]
      rw [Heap.read_write_of_ne _ _ _ i (by omega)]
      exact Heap.read_alloc h baseHeadersObject i hi
    · simp [withBaseFetchHeadersHeap, Heap.write_length, Heap.alloc_length]

/-- Writing a freshly allocated object after a further fresh headers merge
leaves every pre-existing object untouched. -/
theorem write_after_alloc_frame (h : Heap) (headersRef : Option Nat) (o big : JsObject)
    (i : Nat) (hi : i < h.objects.length) :
    ((withBaseFetchHeadersHeap (h.alloc o).1 headersRef).1.write (h.alloc o).2 big).read i
      = h.read i := by
  obtain ⟨hpres1, hres1, hlen1⟩ := withBaseFetchHeadersHeap_frame (h.alloc o).1 headersRef
  have hlen0 := Heap.alloc_length h o
  have hrb := Heap.alloc_ref h o
  rw [Heap.read_write_of_ne _ _ _ i (by omega)]
  rw [hpres1 i (by omega)]
  exact Heap.read_alloc _ _ i hi

/-- C10: none of the five operations mutates any pre-existing object. Every
`Object.assign` and spread in the source targets a freshly allocated literal,
so after an operation's whole object work, every reference that existed
before the call — in particular the configuration object and the headers and
data objects it points to — still reads exactly as it did before.
`mutatingOptionsHeap` replays `postJSON` (extra body source), `deleteJSON`
and `putJSON`; the other two builders replay `getJSON` and `getHeaders`. -/
theorem operations_leave_input_heap_unchanged
    (h : Heap) (headersRef : Option Nat) (body : Option String) (extra : Bool)
    (method : String) (i : Nat) (hi : i < h.objects.length) :
    (getJSONOptionsHeap h headersRef).1.read i = h.read i ∧
    (mutatingOptionsHeap h headersRef body extra method).1.read i = h.read i ∧
    (getHeadersOptionsHeap h headersRef).1.read i = h.read i := by
  obtain ⟨hpres, hres, hlen⟩ := withBaseFetchHeadersHeap_frame h headersRef
  refine ⟨?_, ?_, ?_⟩
  · simp only [getJSONOptionsHeap]
    rw [Heap.read_alloc _ _ i (by omega)]
    exact hpres i hi
  · cases body <;>
      (simp only [mutatingOptionsHeap]
       exact write_after_alloc_frame h headersRef _ _ i hi)
  · simp only [getHeadersOptionsHeap]
    rw [Heap.read_alloc _ _ i (by omega)]
    exact hpres i hi

/-- C10 witness: a two-object heap — a configuration object pointing at its
headers object — reads identically after `postJSON`'s object work. -/
theorem operations_leave_input_heap_unchanged_witness :
    (mutatingOptionsHeap
        ⟨[[("url", .str "/api"), ("headers", .ref 1)], [("X-Custom", .str "yes")]]⟩
        (some 1) (some "\x7b\x7d") true "POST").1.read 0 =
      some [("url", .str "/api"), ("headers", .ref 1)] := by
  rw [(operations_leave_input_heap_unchanged
    ⟨[[("url", .str "/api"), ("headers", .ref 1)], [("X-Custom", .str "yes")]]⟩
    (some 1) (some "\x7b\x7d") true "POST" 0 (by decide)).2.1]
  rfl


/-! ## The JSON codec round-trip (C7) -/


theorem decodeHexDigit_hexDigitChar :
    ∀ d : Nat, d < 16 → decodeHexDigit (hexDigitChar d) = some d := by decide

theorem scanStringBody_escChar (c : Char) (more : List Char) :
    scanStringBody (escChar c ++ more) =
      (scanStringBody more).map (fun pr => (c :: pr.1, pr.2)) := by
  by_cases hq : c = '"'
  · subst hq
    simp +decide [escChar, scanStringBody, unescapeChar]
    cases scanStringBody more with
    | none => rfl
    | some pr => rfl
  · by_cases hb : c = '\\'
    · subst hb
      simp +decide [escChar, scanStringBody, unescapeChar]
      cases scanStringBody more with
      | none => rfl
      | some pr => rfl
    · by_cases hctl : c.toNat < 32
      · have h16a : c.toNat / 16 < 16 := by omega
        have h16b : c.toNat % 16 < 16 := by omega
        have hvc : Char.ofNat (c.toNat / 16 * 16 + c.toNat % 16) = c := by
          rw [show c.toNat / 16 * 16 + c.toNat % 16 = c.toNat from by omega]
          exact Char.ofNat_toNat c
        simp only [escChar, uEscape, if_neg hq, if_neg hb, if_pos hctl, List.cons_append,
          List.nil_append]
        simp +decide only [scanStringBody]
        rw [show decodeHexDigit '0' = some 0 from by decide,
          decodeHexDigit_hexDigitChar _ h16a, decodeHexDigit_hexDigitChar _ h16b]
        simp [hvc]
        cases scanStringBody more with
        | none => rfl
        | some pr => rfl
      · simp only [escChar, if_neg hq, if_neg hb, if_neg hctl, List.cons_append,
          List.nil_append]
        simp [scanStringBody, hq, hb]
        cases scanStringBody more with
        | none => rfl
        | some pr => rfl

theorem scanStringBody_escList (l : List Char) (more : List Char) :
    scanStringBody (escList l ++ '"' :: more) = some (l, more) := by
  induction l with
  | nil => simp [escList, scanStringBody]
  | cons c tl ih =>
    rw [escList, List.append_assoc, scanStringBody_escChar, ih]
    rfl

theorem jparse_serialized_str (s : String) (f : Nat) (rest : List Char) :
    jparse (f + 1) (stringifyChars (.str s) ++ rest) = some (.str s, rest) := by
  have harg : stringifyChars (Json.str s) ++ rest = '"' :: (escList s.data ++ '"' :: rest) := by
    simp [stringifyChars]
  rw [harg]
  simp +decide [jparse, scanStringBody_escList]

theorem jparse_serialized_bool (b : Bool) (f : Nat) (rest : List Char) :
    jparse (f + 1) (stringifyChars (.bool b) ++ rest) = some (.bool b, rest) := by
  have ht : ("true" : String).data = 't' :: 'r' :: 'u' :: 'e' :: [] := rfl
  have hf2 : ("false" : String).data = 'f' :: 'a' :: 'l' :: 's' :: 'e' :: [] := rfl
  cases b <;> simp +decide [jparse, stringifyChars, ht, hf2]

theorem stringifyChars_str_length (s : String) :
    (stringifyChars (Json.str s)).length = (escList s.data).length + 2 := by
  simp [stringifyChars]

theorem jparseItems_succ (fuel : Nat) (cs : List Char) :
    jparseItems (fuel + 1) cs =
      match jparse fuel cs with
      | none => none
      | some (v, rest) =>
        match rest with
        | ',' :: rest2 =>
          match jparseItems fuel rest2 with
          | some (vs, rem) => some (v :: vs, rem)
          | none => none
        | ']' :: rem => some ([v], rem)
        | _ => none := rfl

theorem fuel_succ (f : Nat) (h : 1 ≤ f) : ∃ g, f = g + 1 := ⟨f - 1, by omega⟩

theorem jparseItems_serialized_strs (ss : List String) :
    ss ≠ [] →
    ∀ (f : Nat) (rest : List Char), (stringifyItems (ss.map Json.str)).length ≤ f →
      jparseItems (f + 1) (stringifyItems (ss.map Json.str) ++ ']' :: rest) =
        some (ss.map Json.str, rest) := by
  induction ss with
  | nil => intro h; exact absurd rfl h
  | cons s tl ih =>
    intro _ f rest hf
    cases tl with
    | nil =>
      have hlen := stringifyChars_str_length s
      have hit : stringifyItems ([s].map Json.str) = stringifyChars (Json.str s) := rfl
      rw [hit] at hf
      obtain ⟨g, rfl⟩ := fuel_succ f (by omega)
      rw [jparseItems_succ, hit]
      rw [jparse_serialized_str s g (']' :: rest)]
      rfl
    | cons s2 tl2 =>
      have hlen := stringifyChars_str_length s
      have hsplit : stringifyItems ((s :: s2 :: tl2).map Json.str)
          = stringifyChars (Json.str s) ++
              ',' :: stringifyItems ((s2 :: tl2).map Json.str) := by
        simp [stringifyItems]
      have hflen : (stringifyItems ((s :: s2 :: tl2).map Json.str)).length
          = (stringifyChars (Json.str s)).length + 1 +
              (stringifyItems ((s2 :: tl2).map Json.str)).length := by
        rw [hsplit]; simp; omega
      obtain ⟨g, rfl⟩ := fuel_succ f (by omega)
      have ihh := ih (by simp) g rest (by omega)
      simp only [List.map_cons] at ihh
      rw [jparseItems_succ, hsplit, List.append_assoc, List.cons_append]
      rw [jparse_serialized_str s g _]
      simp [ihh]


theorem stringifyItems_strs_length_pos (ss : List String) (hne : ss ≠ []) :
    2 ≤ (stringifyItems (ss.map Json.str)).length := by
  cases ss with
  | nil => exact absurd rfl hne
  | cons s tl =>
    have hlen := stringifyChars_str_length s
    cases tl with
    | nil =>
      rw [show stringifyItems ([s].map Json.str) = stringifyChars (Json.str s) from rfl]
      omega
    | cons s2 tl2 =>
      have hsplit : stringifyItems ((s :: s2 :: tl2).map Json.str)
          = stringifyChars (Json.str s) ++
              ',' :: stringifyItems ((s2 :: tl2).map Json.str) := by
        simp [stringifyItems]
      rw [hsplit]
      simp
      omega

theorem jparse_bracket_quote (fuel : Nat) (cs : List Char) :
    jparse (fuel + 1) ('[' :: '"' :: cs) =
      match jparseItems fuel ('"' :: cs) with
      | some (vs, rem) => some (Json.arr vs, rem)
      | none => none := rfl

theorem jparse_brace_quote (fuel : Nat) (cs : List Char) :
    jparse (fuel + 1) ('\x7b' :: '"' :: cs) =
      match jparseMembers fuel ('"' :: cs) with
      | some (ms, rem) => some (Json.obj ms, rem)
      | none => none := rfl

theorem jparse_serialized_strArr (ss : List String) (f : Nat) (rest : List Char)
    (hf : (stringifyChars (Json.arr (ss.map Json.str))).length ≤ f + 1) :
    jparse (f + 1) (stringifyChars (Json.arr (ss.map Json.str)) ++ rest) =
      some (Json.arr (ss.map Json.str), rest) := by
  cases ss with
  | nil => simp +decide [stringifyChars, stringifyItems, jparse]
  | cons s tl =>
    have hlenA : (stringifyChars (Json.arr ((s :: tl).map Json.str))).length
        = (stringifyItems ((s :: tl).map Json.str)).length + 2 := by
      simp [stringifyChars]
    have hpos := stringifyItems_strs_length_pos (s :: tl) (by simp)
    have harg : stringifyChars (Json.arr ((s :: tl).map Json.str)) ++ rest
        = '[' :: (stringifyItems ((s :: tl).map Json.str) ++ ']' :: rest) := by
      simp [stringifyChars]
    obtain ⟨W, hW⟩ : ∃ W, stringifyItems ((s :: tl).map Json.str) = '"' :: W := by
      cases tl with
      | nil => exact ⟨escList s.data ++ ['"'], by simp [stringifyItems, stringifyChars]⟩
      | cons s2 tl2 =>
        exact ⟨escList s.data ++ '"' :: ',' :: stringifyItems ((s2 :: tl2).map Json.str),
          by simp [stringifyItems, stringifyChars]⟩
    obtain ⟨g, rfl⟩ := fuel_succ f (by omega)
    have hitems := jparseItems_serialized_strs (s :: tl) (by simp) g rest (by omega)
    rw [harg, hW, List.cons_append]
    rw [jparse_bracket_quote (g + 1)]
    rw [show ('"' :: (W ++ ']' :: rest)) = (('"' :: W) ++ ']' :: rest) from rfl, ← hW, hitems]

theorem jparseMembers_succ (fuel : Nat) (cs : List Char) :
    jparseMembers (fuel + 1) ('"' :: cs) =
      match scanStringBody cs with
      | none => none
      | some (kcs, rest1) =>
        match rest1 with
        | ':' :: rest2 =>
          match jparse fuel rest2 with
          | none => none
          | some (v, rest3) =>
            match rest3 with
            | ',' :: rest4 =>
              match jparseMembers fuel rest4 with
              | some (ms, rem) => some ((String.mk kcs, v) :: ms, rem)
              | none => none
            | '\x7d' :: rem => some ([(String.mk kcs, v)], rem)
            | _ => none
        | _ => none := rfl

theorem stringifyMembers_single (k : String) (v : Json) :
    stringifyMembers [(k, v)] = '"' :: (escList k.data ++ '"' :: ':' :: stringifyChars v) :=
  rfl

theorem stringifyMembers_cons2 (k : String) (v : Json) (kv2 : String × Json)
    (tl2 : List (String × Json)) :
    stringifyMembers ((k, v) :: kv2 :: tl2)
      = ('"' :: (escList k.data ++ '"' :: ':' :: stringifyChars v)) ++
          ',' :: stringifyMembers (kv2 :: tl2) := rfl

theorem jparseMembers_serialized (ms : List (String × Json)) :
    ms ≠ [] →
    (∀ kv ∈ ms, ∀ (g : Nat) (rest2 : List Char), (stringifyChars kv.2).length ≤ g →
      jparse (g + 1) (stringifyChars kv.2 ++ rest2) = some (kv.2, rest2)) →
    ∀ (f : Nat) (rest : List Char), (stringifyMembers ms).length ≤ f →
      jparseMembers (f + 1) (stringifyMembers ms ++ '\x7d' :: rest) = some (ms, rest) := by
  induction ms with
  | nil => intro h; exact absurd rfl h
  | cons kv tl ih =>
    obtain ⟨k, v⟩ := kv
    intro _ hv f rest hf
    have hketa : String.mk k.data = k := rfl
    have hsnd : (stringifyChars ((k, v) : String × Json).2).length
        = (stringifyChars v).length := rfl
    cases tl with
    | nil =>
      have hlen1 : (stringifyMembers [(k, v)]).length
          = (escList k.data).length + 3 + (stringifyChars v).length := by
        rw [stringifyMembers_single]; simp; omega
      obtain ⟨g, rfl⟩ := fuel_succ f (by omega)
      have hval := hv (k, v) (by simp) g ('\x7d' :: rest) (by omega)
      have harg : stringifyMembers [(k, v)] ++ '\x7d' :: rest
          = '"' :: (escList k.data ++ '"' :: (':' :: (stringifyChars v ++ '\x7d' :: rest))) := by
        rw [stringifyMembers_single]; simp
      rw [harg, jparseMembers_succ, scanStringBody_escList]
      simp [hval, hketa]
    | cons kv2 tl2 =>
      have hlen1 : (stringifyMembers ((k, v) :: kv2 :: tl2)).length
          = (escList k.data).length + (stringifyChars v).length
            + (stringifyMembers (kv2 :: tl2)).length + 4 := by
        rw [stringifyMembers_cons2]; simp; omega
      obtain ⟨g, rfl⟩ := fuel_succ f (by omega)
      have hval := hv (k, v) (by simp) g
        (',' :: (stringifyMembers (kv2 :: tl2) ++ '\x7d' :: rest)) (by omega)
      have ihh := ih (by simp) (fun kv hkv => hv kv (by simp [hkv])) g rest (by omega)
      have harg : stringifyMembers ((k, v) :: kv2 :: tl2) ++ '\x7d' :: rest
          = '"' :: (escList k.data ++ '"' :: (':' :: (stringifyChars v ++ ',' ::
              (stringifyMembers (kv2 :: tl2) ++ '\x7d' :: rest)))) := by
        rw [stringifyMembers_cons2]; simp
      rw [harg, jparseMembers_succ, scanStringBody_escList]
      simp [hval, ihh, hketa]


theorem jparse_serialized_obj (ms : List (String × Json)) (hne : ms ≠ [])
    (f : Nat) (rest : List Char)
    (hf : (stringifyChars (Json.obj ms)).length ≤ f + 1)
    (hv : ∀ kv ∈ ms, ∀ (g : Nat) (rest2 : List Char), (stringifyChars kv.2).length ≤ g →
      jparse (g + 1) (stringifyChars kv.2 ++ rest2) = some (kv.2, rest2)) :
    jparse (f + 1) (stringifyChars (Json.obj ms) ++ rest) = some (Json.obj ms, rest) := by
  obtain ⟨kv, tl, rfl⟩ : ∃ kv tl, ms = kv :: tl := by
    cases ms with
    | nil => exact absurd rfl hne
    | cons kv tl => exact ⟨kv, tl, rfl⟩
  obtain ⟨k, v⟩ := kv
  have hlenO : (stringifyChars (Json.obj ((k, v) :: tl))).length
      = (stringifyMembers ((k, v) :: tl)).length + 2 := by
    simp [stringifyChars]
  have hposM : 1 ≤ (stringifyMembers ((k, v) :: tl)).length := by
    cases tl with
    | nil => rw [stringifyMembers_single]; simp
    | cons kv2 tl2 => rw [stringifyMembers_cons2]; simp
  have harg : stringifyChars (Json.obj ((k, v) :: tl)) ++ rest
      = '\x7b' :: (stringifyMembers ((k, v) :: tl) ++ '\x7d' :: rest) := by
    simp [stringifyChars]
  obtain ⟨W, hW⟩ : ∃ W, stringifyMembers ((k, v) :: tl) = '"' :: W := by
    cases tl with
    | nil =>
      exact ⟨escList k.data ++ '"' :: ':' :: stringifyChars v,
        by rw [stringifyMembers_single]⟩
    | cons kv2 tl2 =>
      exact ⟨escList k.data ++ '"' :: ':' ::
          (stringifyChars v ++ ',' :: stringifyMembers (kv2 :: tl2)),
        by rw [stringifyMembers_cons2]; simp⟩
  obtain ⟨g, rfl⟩ := fuel_succ f (by omega)
  have hmem := jparseMembers_serialized ((k, v) :: tl) (by simp) hv g rest (by omega)
  rw [harg, hW, List.cons_append]
  rw [jparse_brace_quote (g + 1)]
  rw [show ('"' :: (W ++ '\x7d' :: rest)) = (('"' :: W) ++ '\x7d' :: rest) from rfl, ← hW,
    hmem]

theorem JSONparse_serialized_obj (ms : List (String × Json)) (hne : ms ≠ [])
    (hv : ∀ kv ∈ ms, ∀ (g : Nat) (rest2 : List Char), (stringifyChars kv.2).length ≤ g →
      jparse (g + 1) (stringifyChars kv.2 ++ rest2) = some (kv.2, rest2)) :
    JSONparse (JSONstringify (Json.obj ms)) = some (Json.obj ms) := by
  have hj := jparse_serialized_obj ms hne (stringifyChars (Json.obj ms)).length []
    (by omega) hv
  rw [List.append_nil] at hj
  have hdata : (JSONstringify (Json.obj ms)).data = stringifyChars (Json.obj ms) := rfl
  simp only [JSONparse, hdata, hj]

theorem classification_ofWire_toWire (c : Classification) :
    Classification.ofWire c.toWire = some c := by
  cases c <;> rfl

theorem idLogicalType_ofWire_toWire (t : IdLogicalType) :
    IdLogicalType.ofWire t.toWire = some t := by
  cases t <;> rfl

theorem complianceFieldIdValue_ofWire_toWire (v : ComplianceFieldIdValue) :
    ComplianceFieldIdValue.ofWire v.toWire = some v := by
  cases v <;> rfl

theorem complianceFieldIdValue_ofWire_nonId (w : NonIdLogicalType) :
    ComplianceFieldIdValue.ofWire w.toWire = none := by
  cases w <;> rfl

theorem nonIdLogicalType_ofWire_toWire (w : NonIdLogicalType) :
    NonIdLogicalType.ofWire w.toWire = some w := by
  cases w <;> rfl

theorem complianceFieldId_ofWire_toWire (i : ComplianceFieldId) :
    ComplianceFieldId.ofWire i.toWire = some i := by
  cases i with
  | idValue v =>
    simp [ComplianceFieldId.ofWire, ComplianceFieldId.toWire,
      complianceFieldIdValue_ofWire_toWire]
  | nonId w =>
    simp [ComplianceFieldId.ofWire, ComplianceFieldId.toWire,
      complianceFieldIdValue_ofWire_nonId, nonIdLogicalType_ofWire_toWire]

theorem decodeFormats_map (l : List IdLogicalType) :
    decodeFormats (l.map (fun t => Json.str t.toWire)) = some l := by
  induction l with
  | nil => rfl
  | cons t tl ih => simp [decodeFormats, idLogicalType_ofWire_toWire, ih]

theorem complianceDataTypeFromJson_toJson (r : IComplianceDataType) :
    complianceDataTypeFromJson (complianceDataTypeToJson r) = some r := by
  obtain ⟨pii, idType, cls, title, urn, fmts, idv, desc⟩ := r
  cases desc with
  | none =>
    simp [complianceDataTypeToJson, complianceDataTypeMembers, complianceDataTypeFromJson,
      getEntry, classification_ofWire_toWire, decodeFormats_map,
      complianceFieldId_ofWire_toWire]
  | some d =>
    simp [complianceDataTypeToJson, complianceDataTypeMembers, complianceDataTypeFromJson,
      getEntry, classification_ofWire_toWire, decodeFormats_map,
      complianceFieldId_ofWire_toWire]


/-- C7: serializing any compliance data type record to JSON text and decoding
that text back yields a record equal to the original in every field,
including an empty `supportedFieldFormats` sequence and a false `idType`. -/
theorem complianceDataType_json_round_trip (r : IComplianceDataType) :
    parseComplianceDataType (serializeComplianceDataType r) = some r := by
  have hmap : r.supportedFieldFormats.map (fun t => Json.str t.toWire)
      = (r.supportedFieldFormats.map IdLogicalType.toWire).map Json.str := by
    simp
  have hne : complianceDataTypeMembers r ≠ [] := by
    cases hd : r.description <;> simp [complianceDataTypeMembers, hd]
  have hv : ∀ kv ∈ complianceDataTypeMembers r, ∀ (g : Nat) (rest2 : List Char),
      (stringifyChars kv.2).length ≤ g →
      jparse (g + 1) (stringifyChars kv.2 ++ rest2) = some (kv.2, rest2) := by
    intro kv hkv g rest2 hg
    simp only [complianceDataTypeMembers, List.mem_append, List.mem_cons,
      List.not_mem_nil, or_false] at hkv
    rcases hkv with (rfl | rfl | rfl | rfl | rfl | rfl | rfl) | hk2
    · exact jparse_serialized_bool r.pii g rest2
    · exact jparse_serialized_bool r.idType g rest2
    · exact jparse_serialized_str _ g rest2
    · exact jparse_serialized_str _ g rest2
    · exact jparse_serialized_str _ g rest2
    · show jparse (g + 1)
          (stringifyChars (Json.arr (r.supportedFieldFormats.map (fun t => Json.str t.toWire)))
            ++ rest2) =
        some (Json.arr (r.supportedFieldFormats.map (fun t => Json.str t.toWire)), rest2)
      have hg2 : (stringifyChars
          (Json.arr ((r.supportedFieldFormats.map IdLogicalType.toWire).map Json.str))).length
            ≤ g := by
        rw [← hmap]; exact hg
      rw [hmap]
      exact jparse_serialized_strArr _ g rest2 (by omega)
    · exact jparse_serialized_str _ g rest2
    · cases hd : r.description with
      | none => rw [hd] at hk2; simp at hk2
      | some d =>
        rw [hd] at hk2
        simp at hk2
        rw [hk2]
        exact jparse_serialized_str _ g rest2
  have hparse := JSONparse_serialized_obj (complianceDataTypeMembers r) hne hv
  have hser : serializeComplianceDataType r
      = JSONstringify (Json.obj (complianceDataTypeMembers r)) := rfl
  have hfrom := complianceDataTypeFromJson_toJson r
  rw [show complianceDataTypeToJson r = Json.obj (complianceDataTypeMembers r) from rfl]
    at hfrom
  rw [hser]
  simp only [parseComplianceDataType, hparse]
  exact hfrom

end WhereHows
